import Mathlib

/-!
Shallow embedding of the HTML-to-Markdown transducer (class `Extract` in
`txtai/pipeline/data/textractor.py`) and verification of its specification.

The parsed HTML document is modelled as a tree of nodes (element nodes with a
tag, an attribute list and children, or raw text nodes), mirroring the
BeautifulSoup tree the Python code walks.  Parent pointers are modelled by
passing the ancestor chain (nearest parent first) alongside each node.
Python string helpers (`strip`, `split`, `join`, truthiness) are embedded
explicitly; attribute indexing that can raise `KeyError` is modelled with
`Except`.
-/

/-! ## Python string helpers -/

/-- Python whitespace characters (`str.isspace`), as used by `str.strip` and
`str.split`: ASCII whitespace plus the Latin-1 spaces NEL and NBSP. -/
def pyWs (c : Char) : Bool :=
  c == ' ' || c == '\t' || c == '\n' || c == '\r' || c == '\x0b' || c == '\x0c'
    || c == '\x85' || c == '\xa0'

/-- Python `str.strip()` on a character list. -/
def pyStripL (l : List Char) : List Char :=
  ((l.dropWhile pyWs).reverse.dropWhile pyWs).reverse

/-- Python `str.strip()`. -/
def pyStrip (s : String) : String := String.mk (pyStripL s.data)

/-- Python `str.lstrip()`. -/
def pyLStrip (s : String) : String := String.mk (s.data.dropWhile pyWs)

/-- Python `str.split("\n")` on a character list. -/
def splitNl : List Char → List (List Char)
  | [] => [[]]
  | '\n' :: rest => [] :: splitNl rest
  | c :: rest =>
    match splitNl rest with
    | [] => [[c]]
    | l :: ls => (c :: l) :: ls

/-- Python `str.split("\n")`. -/
def splitLines (s : String) : List String := (splitNl s.data).map String.mk

/-- Python `sep.join(xs)`. -/
def joinSep (sep : String) (xs : List String) : String :=
  String.mk (List.intercalate sep.data (xs.map String.data))

/-- Python `text.replace("\xa0\n", "\n\n")`: left-to-right non-overlapping
replacement of a non-breaking space followed by a newline. -/
def fixNbsp : List Char → List Char
  | [] => []
  | [c] => [c]
  | c :: c2 :: rest =>
    if c = '\xa0' ∧ c2 = '\n' then '\n' :: '\n' :: fixNbsp rest
    else c :: fixNbsp (c2 :: rest)

/-- Python `f"{x}"` applied to an optional string: `None` renders as "None". -/
def pyOptStr : Option String → String
  | none => "None"
  | some s => s

/-- Python `str.split()` (split on whitespace runs, dropping empty pieces),
used by BeautifulSoup to tokenize the multi-valued `class` attribute. -/
def splitWsAux : List Char → List Char → List (List Char)
  | cur, [] => if cur.isEmpty then [] else [cur.reverse]
  | cur, c :: rest =>
    if pyWs c then
      if cur.isEmpty then splitWsAux [] rest else cur.reverse :: splitWsAux [] rest
    else splitWsAux (c :: cur) rest

/-! ## The document tree -/

/-- A node of the parsed HTML tree: either a raw text node (`NavigableString`)
or an element with tag name, attribute list and children. -/
inductive Node where
  | text (s : String)
  | elem (tag : String) (attrs : List (String × String)) (children : List Node)

mutual
/-- Number of nodes of a tree, used as recursion fuel for `process`. -/
def Node.size : Node → Nat
  | .text _ => 1
  | .elem _ _ cs => 1 + Node.sizeL cs
/-- Total size of a list of sibling trees. -/
def Node.sizeL : List Node → Nat
  | [] => 0
  | c :: cs => Node.size c + Node.sizeL cs
end

/-- `node.name`: `none` for text nodes, the tag for elements. -/
def Node.name : Node → Option String
  | .text _ => none
  | .elem t _ _ => some t

/-- `node.name == t` for a concrete tag `t`. -/
def nameIs (n : Node) (t : String) : Bool := n.name == some t

/-- `node.name in ts`. -/
def tagIn (n : Node) (ts : List String) : Bool := ts.any (fun t => nameIs n t)

/-- Whether the node is a raw text node (`isinstance(x, NavigableString)`). -/
def isTextNode : Node → Bool
  | .text _ => true
  | .elem _ _ _ => false

/-- `node.get(key)` / `node[key]` lookup in the attribute list. -/
def getAttr (n : Node) (key : String) : Option String :=
  match n with
  | .text _ => none
  | .elem _ attrs _ => attrs.lookup key

/-- `node.get("class")` as the token list BeautifulSoup produces for the
multi-valued `class` attribute (absent attribute yields `[]`, which is falsy
exactly like Python's `None`/`[]` in the truthiness checks that consume it). -/
def classList (n : Node) : List String :=
  match getAttr n "class" with
  | none => []
  | some v => (splitWsAux [] v.data).map String.mk

mutual
/-- `node.text` / `soup.get_text()`: concatenation of all descendant strings. -/
def innerText : Node → String
  | .text s => s
  | .elem _ _ cs => innerTextL cs
/-- Concatenated text of a list of sibling nodes. -/
def innerTextL : List Node → String
  | [] => ""
  | c :: cs => innerText c ++ innerTextL cs
end

mutual
/-- `node.find_all(p)`: all descendants (preorder document order) satisfying
`p`, paired with their ancestor chain (nearest parent first).  `anc` is the
ancestor chain of `n` itself; the searched node is not included. -/
def findAllNode (p : Node → Bool) (n : Node) (anc : List Node) :
    List (Node × List Node) :=
  match n with
  | .text _ => []
  | .elem _ _ cs => findAllList p (n :: anc) cs
/-- `find_all` over a list of siblings whose common ancestor chain is `anc`. -/
def findAllList (p : Node → Bool) (anc : List Node) :
    List Node → List (Node × List Node)
  | [] => []
  | c :: rest =>
    (if p c then [(c, anc)] else []) ++ findAllNode p c anc ++ findAllList p anc rest
end

/-- `soup.find(p)`: first matching descendant, if any. -/
def findFirst (p : Node → Bool) (soup : Node) : Option (Node × List Node) :=
  (findAllNode p soup []).head?

mutual
/-- The destructive pre-pass `for script in soup.find_all(["script", "style"]):
script.decompose()`: excise every `script`/`style` subtree. -/
def stripScripts : Node → Node
  | .text s => .text s
  | .elem t a cs => .elem t a (stripScriptsL cs)
/-- `stripScripts` over a list of siblings. -/
def stripScriptsL : List Node → List Node
  | [] => []
  | c :: rest =>
    if tagIn c ["script", "style"] then stripScriptsL rest
    else stripScripts c :: stripScriptsL rest
end

/-! ## The Extract transducer -/

/-- Construction flags of `Extract` (`paragraphs`, `sections`). -/
structure Config where
  paragraphs : Bool
  sections : Bool

/-- `Extract.children`: for a named node with contents, the contents with
whitespace-only string nodes removed; otherwise Python returns `None`.  Both
`None` and the empty list are consumed only through Python truthiness, so they
are represented uniformly by `[]`. -/
def childrenOf : Node → List Node
  | .text _ => []
  | .elem _ _ cs => cs.filter (fun c => c.name.isSome || pyStrip (innerText c) != "")

/-- `Extract.isheader`: `node.name in ["h1", ..., "h6"]`. -/
def isheader (n : Node) : Bool := tagIn n ["h1", "h2", "h3", "h4", "h5", "h6"]

/-- `Extract.iscontainer`: has (filtered) children, and is a `div`/`body`/
`article` or has no raw string children. -/
def iscontainer (node : Node) (children : List Node) : Bool :=
  !children.isEmpty &&
    (tagIn node ["div", "body", "article"] || !children.any isTextNode)

/-- `Extract.islink`: the node or an ancestor is an `<a>` element, unless the
immediate parent is a table cell.  (When the chain is empty the Python code
would dereference a missing parent; the converter only reaches this code with
the document root as final ancestor, so that case is unreachable and mapped to
the non-cell branch.) -/
def islink (node : Node) (anc : List Node) : Bool :=
  let link := (node :: anc).any (fun p => nameIs p "a")
  link && !(match anc with
            | parent :: _ => tagIn parent ["th", "td"]
            | [] => false)

/-- `Extract.articletext`: keep text only for allow-listed tags that are not
link nodes; normalize "non-breaking space + newline"; paragraph whitespace. -/
def articletext (cfg : Config) (node : Node) (anc : List Node) (text : String) :
    String :=
  let valid := ["p", "th", "td", "li", "a", "b", "strong", "i", "em"]
  let text := if (tagIn node valid || isheader node) && !islink node anc then text else ""
  if text != "" then
    let text := String.mk (fixNbsp text.data)
    if nameIs node "p" then
      if cfg.paragraphs then pyStrip text ++ "\n\n" else pyStrip text ++ "\n"
    else text
  else text

/-- `Extract.text`: flatten a node and its children to text, applying
emphasis and link formatting, the article filter, and the final strip rule. -/
def textRule (cfg : Config) (node : Node) (anc : List Node) (article : Bool) :
    String :=
  let items := childrenOf node
  let items := if items.isEmpty then [node] else items
  let texts := items.map (fun x =>
    let target := if x.name.isSome then x else node
    let text := innerText x
    if pyStrip text != "" then
      if tagIn target ["b", "strong"] then "**" ++ pyStrip text ++ "** "
      else if tagIn target ["i", "em"] then "*" ++ pyStrip text ++ "* "
      else if nameIs target "a" then
        "[" ++ pyStrip text ++ "](" ++ pyOptStr (getAttr target "href") ++ ") "
      else text
    else text)
  let text := joinSep "" texts
  let text := if article then articletext cfg node anc text else text
  if node.name.isSome && text != "" then text else pyStrip text

/-- `"#" * int(node.name[1])` for a heading tag name. -/
def headerHashes (n : Node) : String :=
  String.mk (List.replicate (((n.name.getD "").data.getD 1 '0').toNat - '0'.toNat) '#')

/-- `Extract.header`: Markdown heading with a section break (or newline)
prefix; empty output when the computed text is blank. -/
def headerRule (cfg : Config) (node : Node) (anc : List Node) (article : Bool) :
    String :=
  let level := headerHashes node
  let text := textRule cfg node anc article
  let level := if cfg.sections then "\x0c" ++ level else "\n" ++ level
  if pyStrip text != "" then level ++ " " ++ pyLStrip text else ""

/-- `Extract.block`: each line of the trimmed node text prefixed with "> ". -/
def blockRule (cfg : Config) (node : Node) : String :=
  let text := joinSep "\n"
    ((splitNl (pyStripL (innerText node).data)).map (fun x => "> " ++ String.mk x))
  if cfg.paragraphs then text ++ "\n\n" else text ++ "\n"

/-- `Extract.code`: trimmed node text in a fenced code block. -/
def codeRule (cfg : Config) (node : Node) : String :=
  let text := "```\n" ++ pyStrip (innerText node) ++ "\n```"
  if cfg.paragraphs then text ++ "\n\n" else text ++ "\n"

/-- `f"{'|---' * len(columns)}|"`: the Markdown header separator row. -/
def sepRow (m : Nat) : String := String.join (List.replicate m "|---") ++ "|"

/-- The row loop of `Extract.table`: emit each row's cells joined with `|`,
and after the first row (when the table has more than one row, tracked by the
`headerDone` flag) the `|---` separator row sized by that row's column count.
`proc` converts one cell given its ancestor chain. -/
def tableElems (proc : Node → List Node → String) :
    List (Node × List Node) → Bool → Bool → List String
  | [], _, _ => []
  | rw :: rest, many, headerDone =>
    let columns := findAllNode (fun n => tagIn n ["th", "td"]) rw.1 rw.2
    let line := "|" ++ joinSep "|" (columns.map (fun c => proc c.1 c.2)) ++ "|"
    if !headerDone && many then
      line :: sepRow columns.length :: tableElems proc rest many true
    else line :: tableElems proc rest many headerDone

/-- `Extract.process`, with an explicit recursion fuel.  The recursion of the
Python code descends into `find_all` descendants (lists, tables) and filtered
children (containers), all strictly smaller subtrees, so any fuel of at least
`Node.size node` computes the fixpoint (`processF_congr` below).  Dispatch order
and all rules follow the source: headings, blockquotes, lists, code, tables,
skipped tags, then container/text with the page-break suffix. -/
def processF (cfg : Config) : Nat → Node → List Node → Bool → String
  | 0, _, _, _ => ""
  | fuel + 1, node, anc, article =>
    if isheader node then headerRule cfg node anc article
    else if tagIn node ["blockquote", "q"] then blockRule cfg node
    else if tagIn node ["ul", "ol"] then
      joinSep "\n" ((findAllNode (fun n => nameIs n "li") node anc).enum.filterMap
        (fun p =>
          let marker := if nameIs node "ul" then "-" else Nat.repr (p.1 + 1) ++ "."
          let text := processF cfg fuel p.2.1 p.2.2 article
          if text != "" then some (marker ++ " " ++ text) else none))
    else if tagIn node ["code", "pre"] then codeRule cfg node
    else if nameIs node "table" then
      let rows := findAllNode (fun n => nameIs n "tr") node anc
      joinSep "\n"
        (tableElems (fun n a => processF cfg fuel n a article) rows
          (decide (1 < rows.length)) false)
    else if tagIn node (["aside"] ++ (if article then [] else ["header", "footer"])) then ""
    else
      let page := node.name.isSome && (classList node).contains "page"
      let ch := childrenOf node
      let text :=
        if iscontainer node ch then
          joinSep "\n" ((ch.map (fun c => processF cfg fuel c (node :: anc) article)).filter
            (fun t => t != "" || !article))
        else textRule cfg node anc article
      if page && cfg.sections then text ++ "\x0c" else text

/-- `Extract.process`: the fueled engine at its fixpoint. -/
def process (cfg : Config) (node : Node) (anc : List Node) (article : Bool) :
    String :=
  processF cfg (Node.size node) node anc article

/-- `Extract.items`: one `- ` / `"<n>. "` entry per `li` descendant whose
converted text is non-empty (the index counts every `li`), joined by newline. -/
def itemsRule (cfg : Config) (node : Node) (anc : List Node) (article : Bool) :
    String :=
  joinSep "\n" ((findAllNode (fun n => nameIs n "li") node anc).enum.filterMap
    (fun p =>
      let marker := if nameIs node "ul" then "-" else Nat.repr (p.1 + 1) ++ "."
      let text := process cfg p.2.1 p.2.2 article
      if text != "" then some (marker ++ " " ++ text) else none))

/-- `Extract.table`: all rows rendered, with one separator row after the first
row when the table has more than one row. -/
def tableRule (cfg : Config) (node : Node) (anc : List Node) (article : Bool) :
    String :=
  let rows := findAllNode (fun n => nameIs n "tr") node anc
  joinSep "\n"
    (tableElems (fun n a => process cfg n a article) rows
      (decide (1 < rows.length)) false)

/-- `Extract.metadata`: optional bold title and italic description followed by
a separator.  Indexing `description["content"]` raises `KeyError` when the
attribute is absent, modelled by `Except.error`. -/
def metadata (cfg : Config) (node : Node) : Except Unit (List String) :=
  let title := findFirst (fun n => nameIs n "title") node
  let md := match title with
    | some t => if innerText t.1 != "" then ["**" ++ pyStrip (innerText t.1) ++ "**"] else []
    | none => []
  let description :=
    findFirst (fun n => nameIs n "meta" && getAttr n "name" == some "description") node
  match description with
  | none => .ok (if md.isEmpty then md else md ++ [if cfg.sections then "\x0c" else "\n\n"])
  | some d =>
    match getAttr d.1 "content" with
    | none => .error ()
    | some v =>
      let md := if v != "" then md ++ ["\n*" ++ pyStrip v ++ "*"] else md
      .ok (if md.isEmpty then md else md ++ [if cfg.sections then "\x0c" else "\n\n"])

/-- `re.search(r"^#+ ", line)`: the line starts with one or more `#` followed
by a space. -/
def isMdHeading (l : List Char) : Bool :=
  match l with
  | '#' :: rest =>
    match rest.dropWhile (fun c => c == '#') with
    | ' ' :: _ => true
    | _ => false
  | _ => false

/-- `Extract.default`: flat text extraction, with a section break prefixed to
Markdown-heading lines when section mode is enabled. -/
def defaultRule (cfg : Config) (soup : Node) : String :=
  joinSep "\n" ((splitNl (innerText soup).data).map (fun l =>
    if cfg.sections && isMdHeading l then "\x0c" ++ String.mk l else String.mk l))

/-- `next((x for x in ["article", "main"] if soup.find(x)), None)`. -/
def articleOf (soup : Node) : Option String :=
  ["article", "main"].find? (fun x => !(findAllNode (fun n => nameIs n x) soup []).isEmpty)

/-- The node-collection loop of `Extract.__call__`: process every element of
the selected scope tag, skipping article/main sections without a paragraph. -/
def selectNodes (cfg : Config) (soup : Node) : List String :=
  let article := articleOf soup
  (findAllNode (fun n => nameIs n (article.getD "body")) soup []).filterMap (fun d =>
    if article.isNone || !(findAllNode (fun n => nameIs n "p") d.1 d.2).isEmpty then
      some (process cfg d.1 d.2 article.isSome)
    else none)

/-- `Extract.__call__`: strip scripts/styles, select and process the top-level
nodes, and return the metadata plus node texts joined by newline, falling back
to `defaultRule` when no nodes were found.  A `KeyError` escaping `metadata`
is an `Except.error`. -/
def extractCall (cfg : Config) (html : Node) : Except Unit String :=
  let soup := stripScripts html
  let nodes := selectNodes cfg soup
  if !nodes.isEmpty then (metadata cfg soup).map (fun md => joinSep "\n" (md ++ nodes))
  else .ok (defaultRule cfg soup)

/-- The rendered cell row of one table row. -/
def rowLine (proc : Node → List Node → String) (rw : Node × List Node) : String :=
  "|" ++ joinSep "|" ((findAllNode (fun n => tagIn n ["th", "td"]) rw.1 rw.2).map
    (fun c => proc c.1 c.2)) ++ "|"

/-! ## Concrete input documents used by witnesses and counterexamples -/

/-- The default `Textractor` configuration: `paragraphs=False, sections=False`. -/
def cfgDefault : Config := ⟨false, false⟩

/-- Section mode: `paragraphs=False, sections=True`. -/
def cfgSections : Config := ⟨false, true⟩

/-- Parse tree of `<html><body><h1>This is a test</h1></body></html>`. -/
def doc9 : Node :=
  .elem "[document]" []
    [.elem "html" [] [.elem "body" [] [.elem "h1" [] [.text "This is a test"]]]]

/-- A document whose `<meta name="description">` element has no `content`
attribute, alongside a normal body. -/
def docMetaNoContent : Node :=
  .elem "[document]" []
    [.elem "html" []
      [.elem "head" [] [.elem "meta" [("name", "description")] []],
       .elem "body" [] [.elem "p" [] [.text "x"]]]]

/-- A document with title `T`, description `D` and body text `x`. -/
def docTitleDescr : Node :=
  .elem "[document]" []
    [.elem "html" []
      [.elem "head" []
        [.elem "title" [] [.text "T"],
         .elem "meta" [("name", "description"), ("content", "D")] []],
       .elem "body" [] [.elem "p" [] [.text "x"]]]]

/-- An `<h1 class="page">Hi</h1>` heading node. -/
def headingPageNode : Node := .elem "h1" [("class", "page")] [.text "Hi"]

/-- An `<ol>` with a non-empty, an empty and another non-empty item. -/
def olGapNode : Node :=
  .elem "ol" []
    [.elem "li" [] [.text "Test1"], .elem "li" [] [], .elem "li" [] [.text "Test2"]]

/-- The two-row, two-column table of the test suite. -/
def twoRowTable : Node :=
  .elem "table" []
    [.elem "tr" [] [.elem "th" [] [.text "Header1"], .elem "th" [] [.text "Header2"]],
     .elem "tr" [] [.elem "td" [] [.text "Test1"], .elem "td" [] [.text "Test2"]]]

/-- An `<a href="link">Test</a>` element. -/
def linkNode : Node := .elem "a" [("href", "link")] [.text "Test"]

/-- An `<a>Test</a>` element without an `href` attribute. -/
def linkNoHref : Node := .elem "a" [] [.text "Test"]

/-- A `<div>` containing a paragraph and an (article-mode-empty) aside. -/
def divNode : Node :=
  .elem "div" [] [.elem "p" [] [.text "hi"], .elem "aside" [] [.text "nav"]]

/-! ## Spec-side structure selector (for the refinement claim C7) -/

/-- Whether the document has a descendant element with the given tag
(the truthiness of `soup.find(t)`). -/
def containsTag (soup : Node) (t : String) : Bool :=
  !(findAllNode (fun n => nameIs n t) soup []).isEmpty

/-- Follows the spec wording for the structure selector: root mode is Article
if an `article` element exists, else Main if a `main` element exists, else
none (use the body). -/
def rootModeSpec (soup : Node) : Option String :=
  if containsTag soup "article" then some "article"
  else if containsTag soup "main" then some "main"
  else none

/-- Follows the spec wording: collect the elements of the selected scope tag;
in Article/Main mode discard collected elements without a `<p>` descendant. -/
def topNodesSpec (soup : Node) : List (Node × List Node) :=
  match rootModeSpec soup with
  | some t =>
    (findAllNode (fun n => nameIs n t) soup []).filter
      (fun d => !(findAllNode (fun n => nameIs n "p") d.1 d.2).isEmpty)
  | none => findAllNode (fun n => nameIs n "body") soup []

/-! ## Size and membership lemmas -/

/-- Every tree has at least one node. -/
theorem Node.size_pos (n : Node) : 1 ≤ n.size := by
  cases n <;> simp [Node.size]

/-- A member of a sibling list contributes at most the list's total size. -/
theorem Node.size_le_sizeL {c : Node} {cs : List Node} (h : c ∈ cs) :
    c.size ≤ Node.sizeL cs := by
  induction cs with
  | nil => cases h
  | cons a as ih =>
    rcases List.mem_cons.mp h with rfl | h
    · simp only [Node.sizeL]
      omega
    · have := ih h
      simp only [Node.sizeL]
      omega

mutual
/-- Every `find_all` result is a strict subtree of the searched node. -/
theorem size_findAllNode (p : Node → Bool) (n : Node) (anc : List Node) :
    ∀ d ∈ findAllNode p n anc, d.1.size < n.size := by
  intro d hd
  match n with
  | .text s => simp [findAllNode] at hd
  | .elem t a cs =>
    have h := size_findAllList p (Node.elem t a cs :: anc) cs d hd
    simp only [Node.size]
    omega
/-- Every `find_all` result over a sibling list fits inside the list's size. -/
theorem size_findAllList (p : Node → Bool) (anc : List Node) (cs : List Node) :
    ∀ d ∈ findAllList p anc cs, d.1.size ≤ Node.sizeL cs := by
  intro d hd
  match cs with
  | [] => simp [findAllList] at hd
  | c :: rest =>
    simp only [findAllList, List.mem_append] at hd
    rcases hd with (hd | hd) | hd
    · have hdc : d = (c, anc) := by
        by_cases h : p c <;> simp [h] at hd
        · exact hd
      subst hdc
      simp only [Node.sizeL]
      omega
    · have := size_findAllNode p c anc d hd
      simp only [Node.sizeL]
      omega
    · have := size_findAllList p anc rest d hd
      simp only [Node.sizeL]
      omega
end

/-- Filtered children are strict subtrees. -/
theorem size_childrenOf {node c : Node} (h : c ∈ childrenOf node) :
    c.size < node.size := by
  cases node with
  | text s => simp [childrenOf] at h
  | elem t a cs =>
    have hcs : c ∈ cs := List.mem_of_mem_filter h
    have := Node.size_le_sizeL hcs
    simp only [Node.size]
    omega

/-- The second component of an enumerated entry is a member of the list. -/
theorem mem_of_mem_enum {α : Type _} {l : List α} {p : Nat × α} (h : p ∈ l.enum) :
    p.2 ∈ l := by
  have := List.mem_map_of_mem Prod.snd h
  rwa [List.enum_map_snd] at this

/-! ## String and list helper lemmas -/

/-- Appending strings appends their character lists. -/
theorem data_append (s t : String) : (s ++ t).data = s.data ++ t.data := rfl

/-- A string starting with a literal character is non-empty. -/
theorem append_left_ne_empty (c : Char) (s t : String)
    (h : s.data = c :: t.data) : s ≠ "" := by
  intro he
  rw [he] at h
  cases h

/-- `joinSep` on a singleton is the element itself. -/
theorem joinSep_single (sep a : String) : joinSep sep [a] = a := by
  simp [joinSep, List.intercalate, List.intersperse]

/-- Two strings with the same characters are equal. -/
theorem str_ext {s t : String} (h : s.data = t.data) : s = t := by
  cases s
  cases t
  cases h
  rfl

/-- `joinSep` peels off the head when the tail is non-empty. -/
theorem joinSep_cons (sep a : String) {l : List String} (h : l ≠ []) :
    joinSep sep (a :: l) = a ++ sep ++ joinSep sep l := by
  cases l with
  | nil => cases h rfl
  | cons b bs =>
    apply str_ext
    simp [joinSep, List.intercalate, List.intersperse_cons_cons, data_append]

/-- Splitting a newline-free character list yields that single piece. -/
theorem splitNl_no_nl {l : List Char} (h : '\n' ∉ l) : splitNl l = [l] := by
  induction l with
  | nil => rfl
  | cons c cs ih =>
    have hc : ¬(c = '\n') := fun hh => h (hh ▸ List.mem_cons_self c cs)
    have hcs : '\n' ∉ cs := fun hm => h (List.mem_cons_of_mem _ hm)
    simp [splitNl, hc, ih hcs]

/-- Splitting after a newline-free piece peels it off. -/
theorem splitNl_append {p rest : List Char} (h : '\n' ∉ p) :
    splitNl (p ++ '\n' :: rest) = p :: splitNl rest := by
  induction p with
  | nil => simp [splitNl]
  | cons c cs ih =>
    have hc : ¬(c = '\n') := fun hh => h (hh ▸ List.mem_cons_self c cs)
    have hcs : '\n' ∉ cs := fun hm => h (List.mem_cons_of_mem _ hm)
    simp [splitNl, hc, ih hcs]

/-- Splitting the newline-join of newline-free pieces recovers the pieces. -/
theorem splitNl_intercalate :
    ∀ (ps : List (List Char)), ps ≠ [] → (∀ p ∈ ps, '\n' ∉ p) →
      splitNl (List.intercalate ['\n'] ps) = ps := by
  intro ps
  induction ps with
  | nil => intro h; cases h rfl
  | cons p qs ih =>
    intro _ h
    cases qs with
    | nil =>
      have h1 : List.intercalate ['\n'] [p] = p := by
        simp [List.intercalate, List.intersperse]
      rw [h1, splitNl_no_nl (h p (List.mem_cons_self _ _))]
    | cons q qs' =>
      have hstep : List.intercalate ['\n'] (p :: q :: qs') =
          p ++ '\n' :: List.intercalate ['\n'] (q :: qs') := by
        simp [List.intercalate, List.intersperse_cons_cons]
      rw [hstep, splitNl_append (h p (List.mem_cons_self _ _)),
        ih (by simp) (fun r hr => h r (List.mem_cons_of_mem _ hr))]

/-- The non-breaking-space normalization preserves length. -/
theorem fixNbsp_length (l : List Char) : (fixNbsp l).length = l.length := by
  have key : ∀ (n : Nat) (l : List Char), l.length ≤ n → (fixNbsp l).length = l.length := by
    intro n
    induction n using Nat.strong_induction_on with
    | _ n IH =>
      intro l hl
      match l, hl with
      | [], _ => rfl
      | [c], _ => rfl
      | c :: c2 :: rest, hl =>
        simp only [fixNbsp]
        by_cases hc : c = '\xa0' ∧ c2 = '\n'
        · rw [if_pos hc]
          have hlt : rest.length < n := by
            simp only [List.length_cons] at hl
            omega
          have := IH rest.length hlt rest (le_refl _)
          simp [this]
        · rw [if_neg hc]
          have hlt : (c2 :: rest).length < n := by
            simp only [List.length_cons] at hl ⊢
            omega
          have := IH (c2 :: rest).length hlt (c2 :: rest) (le_refl _)
          simp [this]
  exact key l.length l (le_refl _)

/-- The normalization of a non-empty list is non-empty. -/
theorem fixNbsp_ne_nil {l : List Char} (h : l ≠ []) : fixNbsp l ≠ [] := by
  intro he
  have := fixNbsp_length l
  rw [he] at this
  cases l with
  | nil => exact h rfl
  | cons c cs => simp at this

/-- Decimal digit characters are never a newline. -/
theorem digitChar_ne_newline (m : Nat) : Nat.digitChar m ≠ '\n' := by
  rcases (by omega : m < 16 ∨ 16 ≤ m) with h | h
  · have hall : ∀ k : Fin 16, Nat.digitChar k.val ≠ '\n' := by decide
    exact hall ⟨m, h⟩
  · unfold Nat.digitChar
    repeat rw [if_neg (by omega)]
    decide

/-- `Nat.toDigitsCore` never emits a newline beyond its accumulator. -/
theorem toDigitsCore_no_newline :
    ∀ (fuel n : Nat) (ds : List Char), ('\n' ∉ ds) →
      '\n' ∉ Nat.toDigitsCore 10 fuel n ds := by
  intro fuel
  induction fuel with
  | zero => intro n ds h; exact h
  | succ fuel ih =>
    intro n ds h
    simp only [Nat.toDigitsCore]
    have hd : '\n' ∉ Nat.digitChar (n % 10) :: ds := by
      intro hm
      rcases List.mem_cons.mp hm with hm | hm
      · exact digitChar_ne_newline _ hm.symm
      · exact h hm
    by_cases hz : n / 10 = 0
    · rw [if_pos hz]
      exact hd
    · rw [if_neg hz]
      exact ih _ _ hd

/-- Decimal renderings of naturals contain no newline. -/
theorem repr_no_newline (n : Nat) : '\n' ∉ (Nat.repr n).data := by
  show '\n' ∉ ((Nat.toDigits 10 n).asString).data
  have : ((Nat.toDigits 10 n).asString).data = Nat.toDigits 10 n := rfl
  rw [this]
  exact toDigitsCore_no_newline _ _ _ (by simp)

/-- Filtering-by-condition written with `filterMap`. -/
theorem filterMap_ite {α β : Type _} (l : List α) (p : α → Bool) (f : α → β) :
    l.filterMap (fun d => if p d then some (f d) else none) = (l.filter p).map f := by
  induction l with
  | nil => rfl
  | cons a as ih =>
    by_cases h : p a <;> simp [List.filterMap_cons, List.filter_cons, h, ih]

/-- `tableElems` only depends on the cell converter's values at the cells. -/
theorem tableElems_congr {proc1 proc2 : Node → List Node → String} :
    ∀ (rows : List (Node × List Node)) (many headerDone : Bool),
      (∀ rw ∈ rows, ∀ c ∈ findAllNode (fun n => tagIn n ["th", "td"]) rw.1 rw.2,
        proc1 c.1 c.2 = proc2 c.1 c.2) →
      tableElems proc1 rows many headerDone = tableElems proc2 rows many headerDone := by
  intro rows
  induction rows with
  | nil => intro many headerDone _; rfl
  | cons rw rest ih =>
    intro many headerDone h
    have hline : (findAllNode (fun n => tagIn n ["th", "td"]) rw.1 rw.2).map
          (fun c => proc1 c.1 c.2)
        = (findAllNode (fun n => tagIn n ["th", "td"]) rw.1 rw.2).map
          (fun c => proc2 c.1 c.2) :=
      List.map_congr_left (fun c hc => h rw (List.mem_cons_self _ _) c hc)
    have hrest := fun rw' hrw' => h rw' (List.mem_cons_of_mem _ hrw')
    simp only [tableElems, hline]
    by_cases hb : (!headerDone && many) = true
    · rw [if_pos hb, if_pos hb, ih many true hrest]
    · rw [if_neg hb, if_neg hb, ih many headerDone hrest]

/-- Once the separator has been emitted, `tableElems` is a plain row map. -/
theorem tableElems_afterHeader (proc : Node → List Node → String) :
    ∀ (rows : List (Node × List Node)) (many : Bool),
      tableElems proc rows many true = rows.map (rowLine proc) := by
  intro rows
  induction rows with
  | nil => intro many; rfl
  | cons rw rest ih =>
    intro many
    simp only [tableElems, Bool.not_true, Bool.false_and, if_neg, ih many]
    rfl

/-! ## Fuel congruence and the unfolding equation of `process` -/

/-- Any two sufficient fuels give `processF` the same value: the Python
recursion always descends into strict subtrees. -/
theorem processF_congr (cfg : Config) :
    ∀ (k f g : Nat) (node : Node) (anc : List Node) (article : Bool),
      node.size ≤ k → node.size ≤ f → node.size ≤ g →
      processF cfg f node anc article = processF cfg g node anc article := by
  intro k
  induction k using Nat.strong_induction_on with
  | _ k IH =>
    intro f g node anc article hk hf hg
    have hpos := Node.size_pos node
    obtain ⟨f', rfl⟩ : ∃ f', f = f' + 1 := ⟨f - 1, by omega⟩
    obtain ⟨g', rfl⟩ : ∃ g', g = g' + 1 := ⟨g - 1, by omega⟩
    simp only [processF]
    by_cases h1 : isheader node = true
    · rw [if_pos h1, if_pos h1]
    rw [if_neg h1, if_neg h1]
    by_cases h2 : tagIn node ["blockquote", "q"] = true
    · rw [if_pos h2, if_pos h2]
    rw [if_neg h2, if_neg h2]
    by_cases h3 : tagIn node ["ul", "ol"] = true
    · rw [if_pos h3, if_pos h3]
      refine congrArg (joinSep "\n") (List.filterMap_congr ?_)
      intro p hp
      have hmem : p.2 ∈ findAllNode (fun n => nameIs n "li") node anc := mem_of_mem_enum hp
      have hsz := size_findAllNode _ node anc p.2 hmem
      have hrec : processF cfg f' p.2.1 p.2.2 article = processF cfg g' p.2.1 p.2.2 article :=
        IH p.2.1.size (by omega) f' g' p.2.1 p.2.2 article (le_refl _) (by omega) (by omega)
      rw [hrec]
    rw [if_neg h3, if_neg h3]
    by_cases h4 : tagIn node ["code", "pre"] = true
    · rw [if_pos h4, if_pos h4]
    rw [if_neg h4, if_neg h4]
    by_cases h5 : nameIs node "table" = true
    · rw [if_pos h5, if_pos h5]
      refine congrArg (joinSep "\n") (tableElems_congr _ _ _ ?_)
      intro rw_ hrw c hc
      have hsz1 := size_findAllNode _ node anc rw_ hrw
      have hsz2 := size_findAllNode _ rw_.1 rw_.2 c hc
      exact IH c.1.size (by omega) f' g' c.1 c.2 article (le_refl _) (by omega) (by omega)
    rw [if_neg h5, if_neg h5]
    by_cases h6 : tagIn node (["aside"] ++ (if article then [] else ["header", "footer"])) = true
    · rw [if_pos h6, if_pos h6]
    rw [if_neg h6, if_neg h6]
    have hmap : (childrenOf node).map (fun c => processF cfg f' c (node :: anc) article)
        = (childrenOf node).map (fun c => processF cfg g' c (node :: anc) article) := by
      refine List.map_congr_left ?_
      intro c hc
      have hsz := size_childrenOf hc
      exact IH c.size (by omega) f' g' c (node :: anc) article (le_refl _) (by omega) (by omega)
    rw [hmap]

/-- The defining equation of `Extract.process`: dispatch by tag in priority
order (headings, blockquotes, lists, code, tables, skipped tags), then the
container/text branch with the page-break suffix. -/
theorem process_eq (cfg : Config) (node : Node) (anc : List Node) (article : Bool) :
    process cfg node anc article =
      if isheader node then headerRule cfg node anc article
      else if tagIn node ["blockquote", "q"] then blockRule cfg node
      else if tagIn node ["ul", "ol"] then itemsRule cfg node anc article
      else if tagIn node ["code", "pre"] then codeRule cfg node
      else if nameIs node "table" then tableRule cfg node anc article
      else if tagIn node (["aside"] ++ (if article then [] else ["header", "footer"])) then ""
      else
        let text :=
          if iscontainer node (childrenOf node) then
            joinSep "\n" (((childrenOf node).map
              (fun c => process cfg c (node :: anc) article)).filter
              (fun t => t != "" || !article))
          else textRule cfg node anc article
        if (node.name.isSome && (classList node).contains "page") && cfg.sections then
          text ++ "\x0c"
        else text := by
  have hpos := Node.size_pos node
  obtain ⟨m, hm⟩ : ∃ m, node.size = m + 1 := ⟨node.size - 1, by omega⟩
  show processF cfg node.size node anc article = _
  rw [hm]
  simp only [processF]
  by_cases h1 : isheader node = true
  · rw [if_pos h1, if_pos h1]
  rw [if_neg h1, if_neg h1]
  by_cases h2 : tagIn node ["blockquote", "q"] = true
  · rw [if_pos h2, if_pos h2]
  rw [if_neg h2, if_neg h2]
  by_cases h3 : tagIn node ["ul", "ol"] = true
  · rw [if_pos h3, if_pos h3]
    simp only [itemsRule, process]
    refine congrArg (joinSep "\n") (List.filterMap_congr ?_)
    intro p hp
    have hmem : p.2 ∈ findAllNode (fun n => nameIs n "li") node anc := mem_of_mem_enum hp
    have hsz := size_findAllNode _ node anc p.2 hmem
    have hrec : processF cfg m p.2.1 p.2.2 article
        = processF cfg p.2.1.size p.2.1 p.2.2 article :=
      processF_congr cfg p.2.1.size m p.2.1.size p.2.1 p.2.2 article (le_refl _)
        (by omega) (le_refl _)
    rw [hrec]
  rw [if_neg h3, if_neg h3]
  by_cases h4 : tagIn node ["code", "pre"] = true
  · rw [if_pos h4, if_pos h4]
  rw [if_neg h4, if_neg h4]
  by_cases h5 : nameIs node "table" = true
  · rw [if_pos h5, if_pos h5]
    simp only [tableRule, process]
    refine congrArg (joinSep "\n") (tableElems_congr _ _ _ ?_)
    intro rw_ hrw c hc
    have hsz1 := size_findAllNode _ node anc rw_ hrw
    have hsz2 := size_findAllNode _ rw_.1 rw_.2 c hc
    exact processF_congr cfg c.1.size m c.1.size c.1 c.2 article (le_refl _)
      (by omega) (le_refl _)
  rw [if_neg h5, if_neg h5]
  by_cases h6 : tagIn node (["aside"] ++ (if article then [] else ["header", "footer"])) = true
  · rw [if_pos h6, if_pos h6]
  rw [if_neg h6, if_neg h6]
  have hmap : (childrenOf node).map (fun c => processF cfg m c (node :: anc) article)
      = (childrenOf node).map (fun c => process cfg c (node :: anc) article) := by
    refine List.map_congr_left ?_
    intro c hc
    have hsz := size_childrenOf hc
    exact processF_congr cfg c.size m c.size c (node :: anc) article (le_refl _)
      (by omega) (le_refl _)
  rw [hmap]

/-! ## Name and dispatch bridges -/

/-- `nameIs` in propositional form. -/
theorem nameIs_iff {n : Node} {t : String} : nameIs n t = true ↔ n.name = some t := by
  simp [nameIs]

/-- A node with a known name matches no tag list avoiding that name. -/
theorem tagIn_false_of_name {n : Node} {t : String} {ts : List String}
    (h : n.name = some t) (hts : ¬ t ∈ ts) : tagIn n ts = false := by
  simp only [tagIn, nameIs, h]
  simp only [List.any_eq_false, beq_iff_eq, Option.some.injEq]
  intro x hx he
  exact hts (he ▸ hx)

/-- The anchor formatting of the inline text rule, for a simple link. -/
theorem textRule_anchor (cfg : Config) (attrs : List (String × String)) (s : String)
    (anc : List Node) (hs : pyStrip s ≠ "") :
    textRule cfg (.elem "a" attrs [.text s]) anc false
      = "[" ++ pyStrip s ++ "](" ++ pyOptStr (attrs.lookup "href") ++ ") " := by
  have hb : (pyStrip s != "") = true := by simpa using hs
  have hch : childrenOf (.elem "a" attrs [.text s]) = [.text s] := by
    simp [childrenOf, innerText, Node.name, hb]
  have hne : ("[" ++ pyStrip s ++ "](" ++ pyOptStr (attrs.lookup "href") ++ ") ") ≠ "" := by
    intro he
    have hd : ("[" ++ pyStrip s ++ "](" ++ pyOptStr (attrs.lookup "href") ++ ") ").data = [] := by
      rw [he]
    simp [data_append] at hd
  have hbig : (("[" ++ pyStrip s ++ "](" ++ pyOptStr (List.lookup "href" attrs) ++ ") ") != "")
      = true := by
    simpa using hne
  simp [textRule, hch, Node.name, innerText, tagIn, nameIs, getAttr, hb, joinSep_single, hbig]
  rw [if_neg hs, if_neg hne]

/-- Merging the literal None into the anchor rendering. -/
theorem anchor_none_merge (t : String) :
    "[" ++ t ++ "](" ++ "None" ++ ") " = "[" ++ t ++ "](None) " := by
  apply str_ext
  simp [data_append]

/-! ## Claims -/

/-- C9 counterexample: converting `<h1>This is a test</h1>` wrapped in a body
through the transducer does NOT yield exactly "# This is a test": the header
rule prefixes a newline when section mode is off, so the output is
"\n# This is a test". -/
theorem c9_counterexample :
    extractCall cfgDefault doc9 = .ok "\n# This is a test"
    ∧ ¬ extractCall cfgDefault doc9 = .ok "# This is a test" := by
  have h : extractCall cfgDefault doc9 = .ok "\n# This is a test" := rfl
  refine ⟨h, fun hbad => ?_⟩
  exact absurd (Except.ok.inj (h.symm.trans hbad)) (by decide)

/-- C9 (amended): converting `<h1>This is a test</h1>` wrapped in a body
yields "\n# This is a test" — the heading text prefixed by `# ` and by the
newline the header rule adds outside section mode (the claimed string without
the leading newline only appears after the out-of-scope cleaning stage). -/
theorem c9_heading_scenario :
    extractCall cfgDefault doc9 = .ok "\n# This is a test" := rfl

/-- C2: the conversion pass is not exception-free as claimed: for a parsed
document containing a `<meta name="description">` element that lacks a content
attribute, `Extract.metadata` evaluates `description["content"]` and the
resulting `KeyError` propagates out of `Extract.__call__` (modelled as
`Except.error`) instead of producing a defined text output. -/
theorem c2_meta_keyerror : extractCall cfgDefault docMetaNoContent = .error () := rfl

/-- C1 counterexample: for the heading `<h1 class="page">Hi</h1>` with section
mode enabled, `Extract.process` yields "\f# Hi": the output neither ends with
the section-break character nor starts with `#`-prefixed text, refuting the
claim that the break marker is appended after the heading text. -/
theorem c1_counterexample :
    process cfgSections headingPageNode [] false = "\x0c# Hi"
    ∧ (process cfgSections headingPageNode [] false).data.getLast? ≠ some '\x0c'
    ∧ (process cfgSections headingPageNode [] false).data.head? ≠ some '#' :=
  ⟨rfl, by decide, by decide⟩

/-- C1 (amended): a heading node carrying a `page` class with section mode
enabled resolves via the heading rule first, and the heading rule returns
immediately, so the page-break suffix is never appended; the output is the
section-break character, the `#` level, a space and the left-stripped heading
text (empty when the text is blank). -/
theorem c1_heading_page (cfg : Config) (node : Node) (anc : List Node)
    (article : Bool) (hh : isheader node = true) (hp : "page" ∈ classList node)
    (hs : cfg.sections = true) :
    process cfg node anc article = headerRule cfg node anc article
    ∧ (pyStrip (textRule cfg node anc article) ≠ "" →
        process cfg node anc article =
          "\x0c" ++ headerHashes node ++ " " ++ pyLStrip (textRule cfg node anc article)) := by
  have h0 : process cfg node anc article = headerRule cfg node anc article := by
    rw [process_eq, if_pos hh]
  refine ⟨h0, fun hne => ?_⟩
  have hb : (pyStrip (textRule cfg node anc article) != "") = true := by simpa using hne
  rw [h0]
  simp [headerRule, hs, hb]

/-- C1 witness: the amended theorem applied to `<h1 class="page">Hi</h1>` in
section mode. -/
theorem c1_witness :
    isheader headingPageNode = true
    ∧ "page" ∈ classList headingPageNode
    ∧ cfgSections.sections = true
    ∧ pyStrip (textRule cfgSections headingPageNode [] false) ≠ ""
    ∧ process cfgSections headingPageNode [] false =
        "\x0c" ++ headerHashes headingPageNode ++ " "
          ++ pyLStrip (textRule cfgSections headingPageNode [] false) :=
  ⟨by decide, by decide, rfl, by decide,
    (c1_heading_page cfgSections headingPageNode [] false (by decide) (by decide) rfl).2
      (by decide)⟩

/-- C10: an `<a>` element with non-empty text but no `href` attribute still
renders through the inline-text rule as "[text](None) ", the missing URL
printed as the literal `None`, with no error and no omission of the link. -/
theorem c10_link_none (cfg : Config) (attrs : List (String × String)) (s : String)
    (anc : List Node) (hhref : attrs.lookup "href" = none) (hs : pyStrip s ≠ "") :
    textRule cfg (.elem "a" attrs [.text s]) anc false
      = "[" ++ pyStrip s ++ "](None) " := by
  rw [textRule_anchor cfg attrs s anc hs, hhref]
  exact anchor_none_merge (pyStrip s)

/-- C10 witness: the theorem applied to `<a>Test</a>`. -/
theorem c10_witness :
    List.lookup "href" ([] : List (String × String)) = none
    ∧ pyStrip "Test" ≠ ""
    ∧ textRule cfgDefault linkNoHref [] false = "[Test](None) " :=
  ⟨rfl, by decide,
    (c10_link_none cfgDefault [] "Test" [] rfl (by decide)).trans (by decide)⟩

/-- Non-empty character lists make non-empty strings. -/
theorem mk_ne_empty {l : List Char} (h : l ≠ []) : String.mk l ≠ "" := by
  intro he
  exact h (congrArg String.data he)

/-- The anchor rendering is a non-empty string. -/
theorem anchor_ne_empty (t u : String) :
    ("[" ++ t ++ "](" ++ u ++ ") ") ≠ "" := by
  intro he
  have hd : ("[" ++ t ++ "](" ++ u ++ ") ").data = [] := by rw [he]
  simp [data_append] at hd

/-- The inline text rule on a simple anchor, in both modes: the anchor
rendering, passed through the article filter when article mode is on. -/
theorem textRule_anchor_mode (cfg : Config) (attrs : List (String × String))
    (s : String) (anc : List Node) (article : Bool) (hs : pyStrip s ≠ "") :
    textRule cfg (.elem "a" attrs [.text s]) anc article =
      (if article then
        articletext cfg (.elem "a" attrs [.text s]) anc
          ("[" ++ pyStrip s ++ "](" ++ pyOptStr (attrs.lookup "href") ++ ") ")
      else "[" ++ pyStrip s ++ "](" ++ pyOptStr (attrs.lookup "href") ++ ") ") := by
  cases article with
  | false => simpa using textRule_anchor cfg attrs s anc hs
  | true =>
    have hb : (pyStrip s != "") = true := by simpa using hs
    have hch : childrenOf (.elem "a" attrs [.text s]) = [.text s] := by
      simp [childrenOf, innerText, Node.name, hb]
    simp only [if_true]
    simp [textRule, hch, Node.name, innerText, tagIn, nameIs, getAttr, hb, joinSep_single]
    rw [if_neg hs]
    by_cases ha : articletext cfg (.elem "a" attrs [.text s]) anc
        ("[" ++ pyStrip s ++ "](" ++ pyOptStr (List.lookup "href" attrs) ++ ") ") = ""
    · simp [ha]
      decide
    · simp [ha]

/-- C6: in article/main mode, a node whose self-or-ancestor chain contains an
`<a>` element produces empty output from the article filter, UNLESS its
immediate parent is a table cell (`th`/`td`), in which case it is rendered
(non-empty); outside article/main mode the same node produces its normal
non-empty formatted output. -/
theorem c6_link_suppression (cfg : Config) (attrs : List (String × String))
    (s : String) (parent : Node) (rest anc : List Node) (hs : pyStrip s ≠ "") :
    (∀ (node : Node) (t : String),
      (node :: parent :: rest).any (fun p => nameIs p "a") = true →
      tagIn parent ["th", "td"] = false →
      articletext cfg node (parent :: rest) t = "")
    ∧ (tagIn parent ["th", "td"] = false →
        textRule cfg (.elem "a" attrs [.text s]) (parent :: rest) true = "")
    ∧ (tagIn parent ["th", "td"] = true →
        textRule cfg (.elem "a" attrs [.text s]) (parent :: rest) true =
          String.mk (fixNbsp
            ("[" ++ pyStrip s ++ "](" ++ pyOptStr (attrs.lookup "href") ++ ") ").data)
        ∧ textRule cfg (.elem "a" attrs [.text s]) (parent :: rest) true ≠ "")
    ∧ (textRule cfg (.elem "a" attrs [.text s]) anc false =
        "[" ++ pyStrip s ++ "](" ++ pyOptStr (attrs.lookup "href") ++ ") "
      ∧ textRule cfg (.elem "a" attrs [.text s]) anc false ≠ "") := by
  have hsupp : ∀ (node : Node) (t : String),
      (node :: parent :: rest).any (fun p => nameIs p "a") = true →
      tagIn parent ["th", "td"] = false →
      articletext cfg node (parent :: rest) t = "" := by
    intro node t ha hcell
    have hlink : islink node (parent :: rest) = true := by
      simp only [islink, ha, hcell]
      rfl
    simp [articletext, hlink]
  refine ⟨hsupp, ?_, ?_, ?_⟩
  · intro hcell
    rw [textRule_anchor_mode cfg attrs s (parent :: rest) true hs, if_pos rfl]
    apply hsupp
    · simp [nameIs, Node.name]
    · exact hcell
  · intro hcell
    have hlinkf : islink (.elem "a" attrs [.text s]) (parent :: rest) = false := by
      simp [islink, hcell]
    have hvalid : tagIn (.elem "a" attrs [.text s])
        ["p", "th", "td", "li", "a", "b", "strong", "i", "em"] = true := by
      simp [tagIn, nameIs, Node.name]
    have hraw := anchor_ne_empty (pyStrip s) (pyOptStr (attrs.lookup "href"))
    have hrawb : (("[" ++ pyStrip s ++ "](" ++ pyOptStr (attrs.lookup "href") ++ ") ") != "")
        = true := by simpa using hraw
    have hres : textRule cfg (.elem "a" attrs [.text s]) (parent :: rest) true =
        String.mk (fixNbsp
          ("[" ++ pyStrip s ++ "](" ++ pyOptStr (attrs.lookup "href") ++ ") ").data) := by
      rw [textRule_anchor_mode cfg attrs s (parent :: rest) true hs, if_pos rfl]
      simp [articletext, hlinkf, hvalid, hrawb, nameIs, Node.name]
    refine ⟨hres, ?_⟩
    rw [hres]
    apply mk_ne_empty
    apply fixNbsp_ne_nil
    intro hd
    exact hraw (str_ext hd)
  · have h4 := textRule_anchor cfg attrs s anc hs
    exact ⟨h4, by rw [h4]; exact anchor_ne_empty _ _⟩

/-- C6 witness: the theorem applied to `<a href="link">Test</a>` under a
`<div>` parent (suppressed) and under a `<td>` parent (rendered). -/
theorem c6_witness :
    pyStrip "Test" ≠ ""
    ∧ textRule cfgDefault linkNode [.elem "div" [] []] true = ""
    ∧ textRule cfgDefault linkNode [.elem "td" [] []] true = "[Test](link) "
    ∧ textRule cfgDefault linkNode [] false = "[Test](link) " :=
  ⟨by decide,
    (c6_link_suppression cfgDefault [("href", "link")] "Test" (.elem "div" [] []) [] []
      (by decide)).2.1 (by decide),
    ((c6_link_suppression cfgDefault [("href", "link")] "Test" (.elem "td" [] []) [] []
      (by decide)).2.2.1 (by decide)).1.trans (by decide),
    ((c6_link_suppression cfgDefault [("href", "link")] "Test" (.elem "td" [] []) [] []
      (by decide)).2.2.2).1.trans (by decide)⟩

/-- A tag check over a sublist of excluded tags also fails. -/
theorem tagIn_false_mono {n : Node} {ts1 ts2 : List String}
    (h : tagIn n ts2 = false) (hsub : ∀ x ∈ ts1, x ∈ ts2) : tagIn n ts1 = false := by
  simp only [tagIn, List.any_eq_false] at h ⊢
  exact fun x hx => h x (hsub x hx)

/-- C8: for a container node (not dispatched to any structural rule), the
converted child results are joined with newline; in article/main mode empty
child results are dropped from the join, while outside article/main mode empty
child strings are kept as literal blank lines. -/
theorem c8_container_join (cfg : Config) (node : Node) (anc : List Node)
    (article : Bool) (hh : isheader node = false)
    (ht : tagIn node ["blockquote", "q", "ul", "ol", "code", "pre", "table",
        "aside", "header", "footer"] = false)
    (hc : iscontainer node (childrenOf node) = true)
    (hp : ((node.name.isSome && (classList node).contains "page") && cfg.sections) = false) :
    process cfg node anc article =
      joinSep "\n" (((childrenOf node).map
        (fun c => process cfg c (node :: anc) article)).filter
        (fun t => t != "" || !article))
    ∧ (article = false →
        process cfg node anc article =
          joinSep "\n" ((childrenOf node).map
            (fun c => process cfg c (node :: anc) article))) := by
  have h2 : tagIn node ["blockquote", "q"] = false :=
    tagIn_false_mono ht (by decide)
  have h3 : tagIn node ["ul", "ol"] = false :=
    tagIn_false_mono ht (by decide)
  have h4 : tagIn node ["code", "pre"] = false :=
    tagIn_false_mono ht (by decide)
  have h5 : nameIs node "table" = false := by
    have htab : tagIn node ["table"] = false := tagIn_false_mono ht (by decide)
    simpa [tagIn] using htab
  have h6 : tagIn node (["aside"] ++ (if article then [] else ["header", "footer"]))
      = false := by
    refine tagIn_false_mono ht ?_
    cases article <;> decide
  have hmain : process cfg node anc article =
      joinSep "\n" (((childrenOf node).map
        (fun c => process cfg c (node :: anc) article)).filter
        (fun t => t != "" || !article)) := by
    rw [process_eq]
    simp only [hh, h2, h3, h4, h5, h6, hc, Bool.false_eq_true, if_false, if_true, hp]
  refine ⟨hmain, fun hart => ?_⟩
  rw [hmain, hart]
  simp
/-- C8 witness: the theorem applied, in article mode, to a `<div>` holding one
paragraph and one aside: the aside converts to the empty string and is dropped
from the join. -/
theorem c8_witness :
    iscontainer divNode (childrenOf divNode) = true
    ∧ process cfgDefault divNode [] true = "hi\n" :=
  ⟨by decide,
    (c8_container_join cfgDefault divNode [] true (by decide) (by decide) (by decide)
      (by decide)).1.trans (by decide)⟩

/-- `filterMap` with a total function is `map`. -/
theorem filterMap_some_eq_map {α β : Type _} (l : List α) (f : α → β) :
    l.filterMap (fun d => some (f d)) = l.map f := by
  induction l <;> simp [List.filterMap_cons, *]

/-- C7: the structure selector picks root mode Article if any `<article>`
element exists, else Main if any `<main>` element exists, else falls back to
`<body>`; in Article/Main mode every collected scope element without a `<p>`
descendant is discarded, and the surviving elements are converted in document
order. -/
theorem c7_structure_selector (cfg : Config) (soup : Node) :
    articleOf soup = rootModeSpec soup
    ∧ selectNodes cfg soup =
        (topNodesSpec soup).map
          (fun d => process cfg d.1 d.2 (rootModeSpec soup).isSome) := by
  have hart : articleOf soup = rootModeSpec soup := by
    unfold articleOf rootModeSpec containsTag
    cases ha : (findAllNode (fun n => nameIs n "article") soup []).isEmpty
      <;> cases hmn : (findAllNode (fun n => nameIs n "main") soup []).isEmpty
      <;> simp [List.find?, ha, hmn]
  refine ⟨hart, ?_⟩
  rcases hm : rootModeSpec soup with _ | t
  · simp only [selectNodes, hart, hm, topNodesSpec, Option.getD_none, Option.isNone_none,
      Option.isSome_none, Bool.true_or, if_true]
    exact filterMap_some_eq_map _ _
  · simp only [selectNodes, hart, hm, topNodesSpec, Option.getD_some, Option.isNone_some,
      Option.isSome_some, Bool.false_or]
    exact filterMap_ite _ _ _

/-- C3 counterexample: for a document with title `T`, description `D` and one
paragraph `x`, with sections mode enabled, the output is
"**T**\n\n*D*\n\f\nx": the metadata is NOT followed immediately by exactly one
separator before the first content fragment — the list join inserts a newline
before and after the section-break character. -/
theorem c3_counterexample :
    extractCall cfgSections docTitleDescr = .ok "**T**\n\n*D*\n\x0c\nx"
    ∧ ("**T**\n\n*D*\x0c".data.isPrefixOf "**T**\n\n*D*\n\x0c\nx".data) = false :=
  ⟨rfl, by decide⟩

/-- C3 (amended): when a non-empty title, a non-empty meta description and at
least one matched content node are present, the output begins with "**title**"
then "*description*", then a newline, the separator (the section-break
character when sections mode is enabled, else a blank line), and another
newline before the first content fragment: the separator element is joined
into the output with surrounding newlines rather than immediately. -/
theorem c3_metadata_separator (cfg : Config) (soup : Node) (t d : Node × List Node)
    (v : String)
    (ht : findFirst (fun n => nameIs n "title") (stripScripts soup) = some t)
    (htxt : innerText t.1 ≠ "")
    (hd : findFirst (fun n => nameIs n "meta" && getAttr n "name" == some "description")
        (stripScripts soup) = some d)
    (hc : getAttr d.1 "content" = some v) (hv : v ≠ "")
    (hn : selectNodes cfg (stripScripts soup) ≠ []) :
    extractCall cfg soup =
      .ok ("**" ++ pyStrip (innerText t.1) ++ "**" ++ "\n" ++ "\n*" ++ pyStrip v ++ "*"
        ++ "\n" ++ (if cfg.sections then "\x0c" else "\n\n") ++ "\n"
        ++ joinSep "\n" (selectNodes cfg (stripScripts soup))) := by
  have hb1 : (innerText t.1 != "") = true := by simpa using htxt
  have hb2 : (v != "") = true := by simpa using hv
  have hmd : metadata cfg (stripScripts soup) =
      .ok ["**" ++ pyStrip (innerText t.1) ++ "**", "\n*" ++ pyStrip v ++ "*",
        if cfg.sections then "\x0c" else "\n\n"] := by
    simp only [metadata, ht, hd, hc, hb1, hb2, if_true]
    simp
  have hnodes : (!(selectNodes cfg (stripScripts soup)).isEmpty) = true := by
    simp [hn]
  simp only [extractCall, hnodes, if_true, hmd, Except.map]
  congr 1
  have hsplit : (("**" ++ pyStrip (innerText t.1) ++ "**") :: ("\n*" ++ pyStrip v ++ "*")
      :: (if cfg.sections then "\x0c" else "\n\n")
      :: selectNodes cfg (stripScripts soup)) =
      ["**" ++ pyStrip (innerText t.1) ++ "**", "\n*" ++ pyStrip v ++ "*",
        if cfg.sections then "\x0c" else "\n\n"] ++ selectNodes cfg (stripScripts soup) :=
    rfl
  rw [← hsplit]
  rw [joinSep_cons _ _ (by simp), joinSep_cons _ _ (by simp),
    joinSep_cons _ _ hn]
  apply str_ext
  simp [data_append]

/-- C3 witness: the amended theorem applied to the title/description document
in sections mode, yielding the concrete output "**T**\n\n*D*\n\f\nx". -/
theorem c3_witness :
    ("D" : String) ≠ ""
    ∧ selectNodes cfgSections (stripScripts docTitleDescr) ≠ []
    ∧ extractCall cfgSections docTitleDescr = .ok "**T**\n\n*D*\n\x0c\nx" :=
  ⟨by decide, by decide,
    (c3_metadata_separator cfgSections docTitleDescr _ _ "D" rfl (by decide) rfl rfl
      (by decide) (by decide)).trans (congrArg Except.ok (by decide))⟩

/-- Splitting a newline-join of newline-free strings recovers the strings. -/
theorem splitLines_joinSep {L : List String} (hne : L ≠ [])
    (h : ∀ s ∈ L, '\n' ∉ s.data) : splitLines (joinSep "\n" L) = L := by
  unfold splitLines joinSep
  have hmapne : L.map String.data ≠ [] := by simpa using hne
  have hmapnl : ∀ p ∈ L.map String.data, '\n' ∉ p := by
    intro p hp
    obtain ⟨s, hs, rfl⟩ := List.mem_map.mp hp
    exact h s hs
  rw [show (String.mk (List.intercalate "\n".data (L.map String.data))).data
      = List.intercalate ['\n'] (L.map String.data) from rfl]
  rw [splitNl_intercalate _ hmapne hmapnl, List.map_map]
  have hid : (String.mk ∘ String.data) = id := funext (fun s => by cases s; rfl)
  rw [hid, List.map_id]

/-- The list-item markers contain no newline. -/
theorem marker_no_newline (node : Node) (i : Nat) :
    '\n' ∉ (if nameIs node "ul" then "-" else Nat.repr (i + 1) ++ ".").data := by
  by_cases h : nameIs node "ul" = true
  · simp [h]
  · simp only [h, Bool.false_eq_true, if_false, data_append, List.mem_append]
    rintro (hm | hm)
    · exact repr_no_newline _ hm
    · simp at hm

/-- C4: an ordered/unordered list dispatches to the items rule; each `li`
descendant with non-empty converted text contributes exactly one entry, in
document order, prefixed by `-` (unordered) or by its 1-based document
position (ordered) — an empty item contributes no entry at all (leaving a gap
in the numbering, not a numbered blank); when the item texts are newline-free,
the newline-split output is exactly that entry list. -/
theorem c4_list_items (cfg : Config) (node : Node) (anc : List Node) (article : Bool) :
    (tagIn node ["ul", "ol"] = true →
      process cfg node anc article = itemsRule cfg node anc article)
    ∧ itemsRule cfg node anc article =
        joinSep "\n" ((findAllNode (fun n => nameIs n "li") node anc).enum.filterMap
          (fun p =>
            if process cfg p.2.1 p.2.2 article != "" then
              some ((if nameIs node "ul" then "-" else Nat.repr (p.1 + 1) ++ ".")
                ++ " " ++ process cfg p.2.1 p.2.2 article)
            else none))
    ∧ ((∀ d ∈ findAllNode (fun n => nameIs n "li") node anc,
          '\n' ∉ (process cfg d.1 d.2 article).data) →
        (∃ p ∈ (findAllNode (fun n => nameIs n "li") node anc).enum,
          process cfg p.2.1 p.2.2 article ≠ "") →
        splitLines (itemsRule cfg node anc article) =
          (findAllNode (fun n => nameIs n "li") node anc).enum.filterMap
            (fun p =>
              if process cfg p.2.1 p.2.2 article != "" then
                some ((if nameIs node "ul" then "-" else Nat.repr (p.1 + 1) ++ ".")
                  ++ " " ++ process cfg p.2.1 p.2.2 article)
              else none)) := by
  have hchar : itemsRule cfg node anc article =
      joinSep "\n" ((findAllNode (fun n => nameIs n "li") node anc).enum.filterMap
        (fun p =>
          if process cfg p.2.1 p.2.2 article != "" then
            some ((if nameIs node "ul" then "-" else Nat.repr (p.1 + 1) ++ ".")
              ++ " " ++ process cfg p.2.1 p.2.2 article)
          else none)) := rfl
  refine ⟨?_, hchar, ?_⟩
  · intro h3
    obtain ⟨tg, htg, hname⟩ := List.any_eq_true.mp h3
    have hname' : node.name = some tg := nameIs_iff.mp hname
    have htg' : tg = "ul" ∨ tg = "ol" := by simpa using htg
    have hh : isheader node = false := by
      unfold isheader
      refine tagIn_false_of_name hname' ?_
      rcases htg' with rfl | rfl <;> decide
    have h2 : tagIn node ["blockquote", "q"] = false := by
      refine tagIn_false_of_name hname' ?_
      rcases htg' with rfl | rfl <;> decide
    rw [process_eq, if_neg (by simp [hh]), if_neg (by simp [h2]), if_pos h3]
  · intro hnl hex
    rw [hchar]
    refine splitLines_joinSep ?_ ?_
    · obtain ⟨p, hp, hpt⟩ := hex
      have hmem : ((if nameIs node "ul" then "-" else Nat.repr (p.1 + 1) ++ ".")
          ++ " " ++ process cfg p.2.1 p.2.2 article)
          ∈ (findAllNode (fun n => nameIs n "li") node anc).enum.filterMap
            (fun p =>
              if process cfg p.2.1 p.2.2 article != "" then
                some ((if nameIs node "ul" then "-" else Nat.repr (p.1 + 1) ++ ".")
                  ++ " " ++ process cfg p.2.1 p.2.2 article)
              else none) := by
        refine List.mem_filterMap.mpr ⟨p, hp, ?_⟩
        rw [if_pos (by simpa using hpt)]
      exact List.ne_nil_of_mem hmem
    · intro s hs
      obtain ⟨p, hp, hps⟩ := List.mem_filterMap.mp hs
      by_cases hpt : (process cfg p.2.1 p.2.2 article != "") = true
      · rw [if_pos hpt] at hps
        cases hps
        simp only [data_append, List.mem_append]
        rintro ((hm | hm) | hm)
        · exact marker_no_newline node p.1 hm
        · simp at hm
        · exact hnl p.2 (mem_of_mem_enum hp) hm
      · rw [if_neg hpt] at hps
        cases hps

/-- C4 witness: the theorem applied to an `<ol>` whose middle item is empty:
the numbering keeps the document positions 1 and 3 and the empty item
contributes no line. -/
theorem c4_witness :
    tagIn olGapNode ["ul", "ol"] = true
    ∧ process cfgDefault olGapNode [] false = "1. Test1\n3. Test2"
    ∧ splitLines (itemsRule cfgDefault olGapNode [] false) = ["1. Test1", "3. Test2"] :=
  ⟨by decide,
    ((c4_list_items cfgDefault olGapNode [] false).1 (by decide)).trans (by decide),
    ((c4_list_items cfgDefault olGapNode [] false).2.2 (by decide)
      (by decide)).trans (by decide)⟩

/-- C5: a table node dispatches to the table rule; for a table whose `tr`
descendants are `r :: rest` with `rest` non-empty and M columns in every row,
the output is the first row line, then exactly one separator line of M `|---`
cells immediately after it, then the remaining row lines in order; a
single-row table gets no separator line. -/
theorem c5_table (cfg : Config) (node : Node) (anc : List Node) (article : Bool)
    (r : Node × List Node) (rest : List (Node × List Node))
    (hrows : findAllNode (fun n => nameIs n "tr") node anc = r :: rest) :
    (nameIs node "table" = true →
      process cfg node anc article = tableRule cfg node anc article)
    ∧ (rest ≠ [] → ∀ M : Nat,
        (∀ rw_ ∈ r :: rest,
          (findAllNode (fun n => tagIn n ["th", "td"]) rw_.1 rw_.2).length = M) →
        tableRule cfg node anc article =
          joinSep "\n" (rowLine (fun n a => process cfg n a article) r
            :: sepRow M
            :: rest.map (rowLine (fun n a => process cfg n a article))))
    ∧ (rest = [] →
        tableRule cfg node anc article =
          rowLine (fun n a => process cfg n a article) r) := by
  have hub : tableRule cfg node anc article
      = joinSep "\n" (tableElems (fun n a => process cfg n a article) (r :: rest)
          (decide (1 < (r :: rest).length)) false) := by
    unfold tableRule
    rw [hrows]
  refine ⟨?_, ?_, ?_⟩
  · intro h5
    have hname2 : node.name = some "table" := nameIs_iff.mp h5
    have hh : isheader node = false := by
      unfold isheader
      exact tagIn_false_of_name hname2 (by decide)
    have h2 : tagIn node ["blockquote", "q"] = false :=
      tagIn_false_of_name hname2 (by decide)
    have h3 : tagIn node ["ul", "ol"] = false :=
      tagIn_false_of_name hname2 (by decide)
    have h4 : tagIn node ["code", "pre"] = false :=
      tagIn_false_of_name hname2 (by decide)
    rw [process_eq, if_neg (by simp [hh]), if_neg (by simp [h2]),
      if_neg (by simp [h3]), if_neg (by simp [h4]), if_pos h5]
  · intro hne M hM
    have hmany : decide (1 < (r :: rest).length) = true := by
      rw [decide_eq_true_eq]
      cases rest with
      | nil => cases hne rfl
      | cons q qs => simp
    have hunf : tableElems (fun n a => process cfg n a article) (r :: rest) true false
        = rowLine (fun n a => process cfg n a article) r
          :: sepRow (findAllNode (fun n => tagIn n ["th", "td"]) r.1 r.2).length
          :: tableElems (fun n a => process cfg n a article) rest true true := by
      simp [tableElems, rowLine]
    rw [hub, hmany, hunf, tableElems_afterHeader, hM r (List.mem_cons_self _ _)]
  · intro heq
    subst heq
    have hone : decide (1 < ([r] : List (Node × List Node)).length) = false := by
      rw [decide_eq_false_iff_not]
      simp
    have hunf : tableElems (fun n a => process cfg n a article) [r] false false
        = [rowLine (fun n a => process cfg n a article) r] := by
      simp [tableElems, rowLine]
    rw [hub, hone, hunf, joinSep_single]

/-- C5 witness: the theorem applied to the two-row, two-column test table. -/
theorem c5_witness :
    nameIs twoRowTable "table" = true
    ∧ process cfgDefault twoRowTable [] false
        = "|Header1|Header2|\n|---|---|\n|Test1|Test2|"
    ∧ tableRule cfgDefault twoRowTable [] false
        = "|Header1|Header2|\n|---|---|\n|Test1|Test2|" :=
  ⟨by decide,
    ((c5_table cfgDefault twoRowTable [] false
      (.elem "tr" [] [.elem "th" [] [.text "Header1"], .elem "th" [] [.text "Header2"]],
        [twoRowTable])
      [(.elem "tr" [] [.elem "td" [] [.text "Test1"], .elem "td" [] [.text "Test2"]],
        [twoRowTable])] rfl).1 (by decide)).trans (by decide),
    ((c5_table cfgDefault twoRowTable [] false
      (.elem "tr" [] [.elem "th" [] [.text "Header1"], .elem "th" [] [.text "Header2"]],
        [twoRowTable])
      [(.elem "tr" [] [.elem "td" [] [.text "Test1"], .elem "td" [] [.text "Test2"]],
        [twoRowTable])] rfl).2.1 (by exact List.cons_ne_nil _ _) 2
      (by decide)).trans (by decide)⟩
